import Mathlib

/-! Verification model of the todo command-line application (src/cli.py).

The Python source is embedded shallowly:

* `PRIORITIES` (cli.py lines 18-24) becomes an association list from short
  keys to display labels.
* A loaded collection entry is either a Python dict with the three fields
  `name` / `description` / `priority` (json and csv modes) or a raw string
  (txt mode); the type `Todo` has one constructor for each shape.
* The todo file on disk is modelled by `FileState`.  The json and csv
  encodings are represented at the level of the parsed value (the Python
  `json` and `csv` library calls in `load_todos` / `save_todos` are trusted
  to be inverse serialisation/parsing on the values this program stores);
  the txt encoding is kept at the level of raw characters, because the
  program itself performs the line joining (`save_todos`, line 66-68) and
  splitting (`load_todos`, line 44 via `str.splitlines`).  A file that
  exists but cannot be parsed in the configured format is `malformed`;
  a missing file is `missing`.
* Every exception path of `load_todos` is caught inside the function
  (lines 45-48), so `loadTodos` is a total function returning the loaded
  collection together with the log event it emits.
* `delete_todo` and `list_todos` have uncaught exception paths
  (`list.pop` out of range, `todo['priority']` on a string); their results
  carry an explicit `crashed` flag.
-/

namespace TodoCli

/-- Priority table `PRIORITIES` of cli.py (lines 18-24): short key to
display label. -/
def PRIORITIES : List (String × String) :=
  [("o", "Optional"), ("l", "Low"), ("m", "Medium"), ("h", "High"), ("c", "Crucial")]

/-- The dict access `PRIORITIES[k]`. -/
def priorityLabel (k : String) : Option String := PRIORITIES.lookup k

/-- A structured todo record: the Python dict
`{'name': ..., 'description': ..., 'priority': ...}` built in `add_todo`
(lines 99-103) and read back by the json and csv loaders. -/
structure TodoItem where
  name : String
  description : String
  priority : String
deriving DecidableEq

/-- One entry of a loaded collection: json and csv modes yield dicts,
txt mode yields raw strings (cli.py line 44). -/
inductive Todo where
  | dict (r : TodoItem)
  | str (s : String)
deriving DecidableEq

/-- The configured `StorageType` (config.ini; read at cli.py lines 97, 115, 129). -/
inductive StorageType where
  | json
  | csv
  | txt
deriving DecidableEq

/-- The line-boundary characters of Python `str.splitlines`. -/
def isBreak (c : Char) : Bool :=
  c = '\n' || c = '\r' || c = '\x0B' || c = '\x0C' || c = '\x1C' || c = '\x1D' ||
  c = '\x1E' || c = '\u0085' || c = '\u2028' || c = '\u2029'

/-- Worker for `splitlines`: `acc` holds the characters of the current
(unterminated) line in reverse. `\r\n` counts as a single boundary; a
trailing unterminated line is kept, a trailing empty one is not —
exactly Python `str.splitlines`. -/
def splitlinesAux : List Char → List Char → List (List Char)
  | [], acc => if acc.isEmpty then [] else [acc.reverse]
  | [c], acc =>
    if isBreak c then acc.reverse :: splitlinesAux [] []
    else splitlinesAux [] (c :: acc)
  | c :: c2 :: rest, acc =>
    if c = '\r' ∧ c2 = '\n' then acc.reverse :: splitlinesAux rest []
    else if isBreak c then acc.reverse :: splitlinesAux (c2 :: rest) []
    else splitlinesAux (c2 :: rest) (c :: acc)

/-- Python `str.splitlines` (cli.py line 44 reads the txt file with
`f.read().splitlines()`). -/
def splitlines (cs : List Char) : List (List Char) := splitlinesAux cs []

/-- The todo file on disk. `jsonFile` / `csvFile` hold the parsed value a
well-formed file of that format denotes; `txtFile` holds the raw
characters; `malformed fmt` is a file that exists but fails to parse in
format `fmt`; `missing` is an absent file. -/
inductive FileState where
  | missing
  | jsonFile (entries : List Todo)
  | csvFile (rows : List TodoItem)
  | txtFile (content : List Char)
  | malformed (fmt : StorageType)
deriving DecidableEq

/-- The log event `load_todos` emits: a clean read, the info message
"No todo file found, starting a new one." (line 46), or the error message
"Failed to load todos: ..." (line 48). -/
inductive LoadLog where
  | okRead
  | infoMissing
  | errorParse
deriving DecidableEq

/-- Model of `load_todos` (cli.py lines 29-49).  All exceptions are caught inside
the function, so it is total: a missing file yields the empty collection
with an info log, an unparseable file yields the empty collection with an
error log.  The final catch-all also covers a file whose bytes belong to
a different format than the configured one (the spec's single-format
session invariant, section 3). -/
def loadTodos : StorageType → FileState → List Todo × LoadLog
  | _, .missing => ([], .infoMissing)
  | .json, .jsonFile es => (es, .okRead)
  | .csv, .csvFile rows => (rows.map Todo.dict, .okRead)
  | .txt, .txtFile content => ((splitlines content).map (fun l => Todo.str ⟨l⟩), .okRead)
  | _, _ => ([], .errorParse)

/-- Single-quote character (used by the Python `repr` of strings). -/
def squote : Char := Char.ofNat 39

/-- Double-quote character. -/
def dquote : Char := Char.ofNat 34

/-- Escaping of one character inside a Python string repr quoted by `q`
(backslash, the quote, and the common control characters). -/
def pyEscapeChar (q : Char) (c : Char) : List Char :=
  if c = '\\' then ['\\', '\\']
  else if c = q then ['\\', q]
  else if c = '\n' then ['\\', 'n']
  else if c = '\r' then ['\\', 'r']
  else if c = '\t' then ['\\', 't']
  else [c]

/-- Python `repr` of a string: single-quoted, unless the string contains a
single quote and no double quote. -/
def pyReprStr (s : String) : String :=
  let q : Char := if s.data.contains squote && !(s.data.contains dquote) then dquote else squote
  ⟨q :: s.data.foldr (fun c acc => pyEscapeChar q c ++ acc) [q]⟩

/-- Python `str` of a dict with the three todo fields (insertion order of
`add_todo`), as produced by `f"{todo}"` when a dict entry is written or
listed in txt mode. -/
def pyDictRepr (r : TodoItem) : String :=
  "\x7b'name': " ++ pyReprStr r.name ++ ", 'description': " ++ pyReprStr r.description ++
    ", 'priority': " ++ pyReprStr r.priority ++ "\x7d"

/-- Python `str(todo)`, as interpolated by `f"{todo}"`. -/
def pyStr : Todo → String
  | .str s => s
  | .dict r => pyDictRepr r

/-- Characters of `str(todo)`. -/
def pyChars (t : Todo) : List Char := (pyStr t).data

/-- Characters written for a list of todos in txt mode: each entry
followed by a newline (`f.write(f"{todo}\n")`, cli.py lines 67-68). -/
def joinNl (ls : List (List Char)) : List Char := ls.foldr (fun l acc => l ++ '\n' :: acc) []

/-- The rows `csv.DictWriter.writerows` has written when it hits the first
entry that is not a dict (which raises, so the rest of the collection is
dropped; the exception is caught at cli.py line 69 and the save ends
there).  On an all-dict collection this is just the full list of rows. -/
def takeRecs : List Todo → List TodoItem
  | [] => []
  | .dict r :: rest => r :: takeRecs rest
  | .str _ :: _ => []

/-- Model of `save_todos` (cli.py lines 51-70): overwrites the file wholesale in
the configured encoding. -/
def saveTodos (todos : List Todo) : StorageType → FileState
  | .json => .jsonFile todos
  | .csv => .csvFile (takeRecs todos)
  | .txt => .txtFile (joinNl (todos.map pyChars))

/-- The string appended in txt mode by `add_todo`
(`f"{name}: {description} [Priority: {PRIORITIES[priority]}]"`, line 105). -/
def newTxtLine (name description label : String) : String :=
  name ++ ": " ++ description ++ " [Priority: " ++ label ++ "]"

/-- Model of `add_todo` (cli.py lines 91-109): load, append one entry (string in
txt mode, dict otherwise), save.  `priority` has already been validated
by `click.Choice`, so the dict access `PRIORITIES[priority]` cannot fail;
the model totalises it with `getD`. -/
def add_todo (name description priority : String) (fmt : StorageType)
    (fs : FileState) : FileState :=
  let todos := (loadTodos fmt fs).1
  let label := (priorityLabel priority).getD ""
  let todos' :=
    if fmt = .txt then todos ++ [Todo.str (newTxtLine name description label)]
    else todos ++ [Todo.dict ⟨name, description, label⟩]
  saveTodos todos' fmt

/-- The `add-todo` command as invoked from the CLI: the positional
priority argument defaults to `"m"` (cli.py line 92). -/
def add_todo_cmd (name description : String) (priority : Option String)
    (fmt : StorageType) (fs : FileState) : FileState :=
  add_todo name description (priority.getD "m") fmt fs

/-- Observable outcome of `delete_todo`: resulting file state, lines
echoed to the terminal, whether `save_todos` ran, and whether the
operation died on an uncaught exception. -/
structure DeleteResult where
  file : FileState
  echoed : List String
  saved : Bool
  crashed : Bool
deriving DecidableEq

/-- Python `list.pop(idx)`: negative indices count from the end; an index
out of range after that adjustment raises `IndexError` (modelled as
`none`). -/
def pyPop (todos : List Todo) (idx : Int) : Option (List Todo) :=
  let n : Int := todos.length
  let pos : Int := if idx < 0 then idx + n else idx
  if 0 ≤ pos ∧ pos < n then some (todos.eraseIdx pos.toNat) else none

/-- Model of `delete_todo` (cli.py lines 111-123): load; if `idx < len(todos)` pop
and save, else echo "Invalid todo index.".  The pop sits outside any
handler, so its `IndexError` aborts the command before any save. -/
def delete_todo (idx : Int) (fmt : StorageType) (fs : FileState) : DeleteResult :=
  let todos := (loadTodos fmt fs).1
  if idx < (todos.length : Int) then
    match pyPop todos idx with
    | some todos' => ⟨saveTodos todos' fmt, [], true, false⟩
    | none => ⟨fs, [], false, true⟩
  else ⟨fs, ["Invalid todo index."], false, false⟩

/-- The filtering comprehension of `list_todos` (cli.py line 131):
`[todo for todo in todos if todo['priority'] == PRIORITIES[priority]]`.
For each entry, `todo['priority']` is evaluated first — a `TypeError`
on a raw string entry — and then `PRIORITIES[priority]` — a `KeyError`
when the key is unknown (unreachable through `click.Choice`).  Either
uncaught exception is modelled as `none`. -/
def filterTodos (labelOpt : Option String) : List Todo → Option (List Todo)
  | [] => some []
  | .str _ :: _ => none
  | .dict r :: rest =>
    match labelOpt with
    | none => none
    | some label =>
      (filterTodos labelOpt rest).map
        (fun tl => if r.priority = label then Todo.dict r :: tl else tl)

/-- The structured-format output line of `list_todos` (cli.py line 136):
`f"({idx}) - {todo['name']}: {todo['description']} [Priority: {todo['priority']}]"`. -/
def displayRecLine (i : Nat) (r : TodoItem) : String :=
  "(" ++ toString i ++ ") - " ++ r.name ++ ": " ++ r.description ++
    " [Priority: " ++ r.priority ++ "]"

/-- One output line of the listing loop (cli.py lines 132-136).  In txt
format the entry is interpolated whole; otherwise the three fields are
read, which raises `TypeError` (`none`) on a raw string entry. -/
def formatLine (fmt : StorageType) (i : Nat) (t : Todo) : Option String :=
  match fmt with
  | .txt => some ("(" ++ toString i ++ ") - " ++ pyStr t)
  | _ =>
    match t with
    | .dict r => some (displayRecLine i r)
    | .str _ => none

/-- The `enumerate` loop of `list_todos` (lines 132-136): echo lines in
order until done or until a line raises; returns the lines echoed before
any crash, and the crash flag. -/
def renderLines (fmt : StorageType) : Nat → List Todo → List String × Bool
  | _, [] => ([], false)
  | i, t :: rest =>
    match formatLine fmt i t with
    | some l =>
      let p := renderLines fmt (i + 1) rest
      (l :: p.1, p.2)
    | none => ([], true)

/-- Observable outcome of `list_todos`: lines echoed and whether the
command died on an uncaught exception.  It never writes the file. -/
structure ListResult where
  echoed : List String
  crashed : Bool
deriving DecidableEq

/-- Model of `list_todos` (cli.py lines 125-137): load, optionally filter by
priority, then echo each surviving entry with its position in the
filtered view. -/
def list_todos (priority : Option String) (fmt : StorageType) (fs : FileState) : ListResult :=
  let todos := (loadTodos fmt fs).1
  match priority with
  | none =>
    let p := renderLines fmt 0 todos
    ⟨p.1, p.2⟩
  | some k =>
    match filterTodos (priorityLabel k) todos with
    | none => ⟨[], true⟩
    | some ft =>
      let p := renderLines fmt 0 ft
      ⟨p.1, p.2⟩

/-! ### Helper lemmas about line splitting -/

/-- A character list free of any line-boundary character. -/
def BreakFree (l : List Char) : Prop := ∀ c ∈ l, isBreak c = false

instance (l : List Char) : Decidable (BreakFree l) := by
  unfold BreakFree; infer_instance

/-- Every line-boundary character in `cs` is a plain newline. -/
def OnlyNl (cs : List Char) : Prop := ∀ c ∈ cs, isBreak c = true → c = '\n'

instance (cs : List Char) : Decidable (OnlyNl cs) := by
  unfold OnlyNl; infer_instance

/-- Whether `cs` ends with a newline character. -/
def endsNl : List Char → Bool
  | [] => false
  | [c] => c = '\n'
  | _ :: c :: rest => endsNl (c :: rest)

theorem breakFree_nil : BreakFree [] := by intro c hc; cases hc

theorem breakFree_cons {c : Char} {l : List Char} (hc : isBreak c = false)
    (hl : BreakFree l) : BreakFree (c :: l) := by
  intro d hd
  rcases List.mem_cons.1 hd with h | h
  · exact h ▸ hc
  · exact hl d h

theorem OnlyNl.of_breakFree {l : List Char} (h : BreakFree l) : OnlyNl l := by
  intro c hc hb
  exact absurd hb (by simp [h c hc])

/-- The lines produced by `splitlinesAux` contain no line-boundary
characters: every boundary character terminates its line. -/
theorem breakFree_splitlinesAux :
    ∀ cs acc, BreakFree acc → ∀ l ∈ splitlinesAux cs acc, BreakFree l := by
  intro cs acc
  induction cs, acc using splitlinesAux.induct with
  | case1 acc hemp =>
    intro _ l hl
    unfold splitlinesAux at hl
    rw [if_pos hemp] at hl
    cases hl
  | case2 acc hemp =>
    intro hacc l hl
    unfold splitlinesAux at hl
    rw [if_neg hemp] at hl
    rcases List.mem_singleton.1 hl with rfl
    intro c hc
    exact hacc c (List.mem_reverse.1 hc)
  | case3 c acc hbrk ih =>
    intro hacc l hl
    unfold splitlinesAux at hl
    rw [if_pos hbrk] at hl
    rcases List.mem_cons.1 hl with rfl | hl'
    · intro d hd; exact hacc d (List.mem_reverse.1 hd)
    · exact ih breakFree_nil l hl'
  | case4 c acc hbrk ih =>
    intro hacc l hl
    unfold splitlinesAux at hl
    rw [if_neg hbrk] at hl
    exact ih (breakFree_cons (by simpa using hbrk) hacc) l hl
  | case5 c c2 rest acc h ih =>
    intro hacc l hl
    unfold splitlinesAux at hl
    rw [if_pos h] at hl
    rcases List.mem_cons.1 hl with rfl | hl'
    · intro d hd; exact hacc d (List.mem_reverse.1 hd)
    · exact ih breakFree_nil l hl'
  | case6 c c2 rest acc h hbrk ih =>
    intro hacc l hl
    unfold splitlinesAux at hl
    rw [if_neg h, if_pos hbrk] at hl
    rcases List.mem_cons.1 hl with rfl | hl'
    · intro d hd; exact hacc d (List.mem_reverse.1 hd)
    · exact ih breakFree_nil l hl'
  | case7 c c2 rest acc h hbrk ih =>
    intro hacc l hl
    unfold splitlinesAux at hl
    rw [if_neg h, if_neg hbrk] at hl
    exact ih (breakFree_cons (by simpa using hbrk) hacc) l hl

/-- The lines of `splitlines` are free of boundary characters. -/
theorem breakFree_splitlines (cs : List Char) :
    ∀ l ∈ splitlines cs, BreakFree l :=
  breakFree_splitlinesAux cs [] breakFree_nil

/-- Splitting a break-free line followed by a newline peels off exactly
that line. -/
theorem splitlinesAux_breakFree_line :
    ∀ (e : List Char), BreakFree e → ∀ rest acc,
      splitlinesAux (e ++ '\n' :: rest) acc = (acc.reverse ++ e) :: splitlines rest := by
  intro e
  induction e with
  | nil =>
    intro _ rest acc
    cases rest with
    | nil => simp [splitlinesAux, splitlines, isBreak]
    | cons r rs =>
      show splitlinesAux ('\n' :: r :: rs) acc = _
      unfold splitlinesAux
      rw [if_neg (by rintro ⟨h, -⟩; exact absurd h (by decide)),
        if_pos (by decide)]
      simp [splitlines]
  | cons c e' ih =>
    intro hbf rest acc
    have hc : isBreak c = false := hbf c (List.mem_cons_self _ _)
    have hbf' : BreakFree e' := fun d hd => hbf d (List.mem_cons_of_mem _ hd)
    obtain ⟨d, ds, hds⟩ : ∃ d ds, e' ++ '\n' :: rest = d :: ds := by
      cases e' with
      | nil => exact ⟨'\n', rest, rfl⟩
      | cons a b => exact ⟨a, b ++ '\n' :: rest, rfl⟩
    show splitlinesAux (c :: (e' ++ '\n' :: rest)) acc = _
    rw [hds]
    unfold splitlinesAux
    rw [if_neg (by rintro ⟨rfl, -⟩; exact absurd hc (by decide)),
      if_neg (by simp [hc])]
    rw [← hds, ih hbf' rest (c :: acc)]
    simp

/-- Saving break-free lines and splitting them back is the identity:
`splitlines` inverts `joinNl` on collections whose entries contain no
line-boundary characters. -/
theorem splitlines_joinNl :
    ∀ E : List (List Char), (∀ l ∈ E, BreakFree l) → splitlines (joinNl E) = E := by
  intro E hE
  induction E with
  | nil => rfl
  | cons e E' ih =>
    show splitlines (e ++ '\n' :: joinNl E') = _
    rw [splitlines, splitlinesAux_breakFree_line e (hE e (List.mem_cons_self _ _))]
    rw [ih fun l hl => hE l (List.mem_cons_of_mem _ hl)]
    simp

theorem endsNl_append (s t : List Char) (ht : endsNl t = true) :
    endsNl (s ++ t) = true := by
  induction s with
  | nil => simpa
  | cons c s' ih =>
    have hne : t ≠ [] := by rintro rfl; simp [endsNl] at ht
    obtain ⟨d, ds, hds⟩ : ∃ d ds, s' ++ t = d :: ds := by
      cases s' with
      | nil =>
        cases t with
        | nil => exact absurd rfl hne
        | cons a b => exact ⟨a, b, rfl⟩
      | cons a b => exact ⟨a, b ++ t, rfl⟩
    show endsNl (c :: (s' ++ t)) = true
    rw [hds]
    show endsNl (d :: ds) = true
    rw [← hds]
    exact ih

theorem endsNl_joinNl : ∀ E : List (List Char), E ≠ [] → endsNl (joinNl E) = true := by
  intro E
  induction E with
  | nil => intro h; exact absurd rfl h
  | cons e E' ih =>
    intro _
    show endsNl (e ++ '\n' :: joinNl E') = true
    apply endsNl_append
    cases hE : E' with
    | nil => simp [joinNl, endsNl]
    | cons f E'' =>
      have h1 : endsNl (joinNl (f :: E'')) = true := by
        rw [← hE]; exact ih (by simp [hE])
      obtain ⟨d, ds, hds⟩ : ∃ d ds, joinNl (f :: E'') = d :: ds := by
        show ∃ d ds, f ++ '\n' :: joinNl E'' = d :: ds
        cases f with
        | nil => exact ⟨'\n', joinNl E'', rfl⟩
        | cons a b => exact ⟨a, b ++ '\n' :: joinNl E'', rfl⟩
      rw [hds]
      show endsNl (d :: ds) = true
      rw [← hds]
      exact h1

theorem mem_joinNl :
    ∀ (E : List (List Char)) (c : Char), c ∈ joinNl E → (∃ l ∈ E, c ∈ l) ∨ c = '\n' := by
  intro E
  induction E with
  | nil => intro c hc; cases hc
  | cons e E' ih =>
    intro c hc
    rcases List.mem_append.1 hc with h | h
    · exact .inl ⟨e, List.mem_cons_self _ _, h⟩
    · rcases List.mem_cons.1 h with rfl | h'
      · exact .inr rfl
      · rcases ih c h' with ⟨l, hl, hcl⟩ | h''
        · exact .inl ⟨l, List.mem_cons_of_mem _ hl, hcl⟩
        · exact .inr h''

theorem onlyNl_joinNl (E : List (List Char)) (hE : ∀ l ∈ E, OnlyNl l) :
    OnlyNl (joinNl E) := by
  intro c hc hb
  rcases mem_joinNl E c hc with ⟨l, hl, hcl⟩ | h
  · exact hE l hl c hcl hb
  · exact h

/-- Rebuilding the split lines with newline terminators reproduces the
original characters, provided every line-boundary character was a plain
newline and the text ended with one. -/
theorem joinNl_splitlinesAux :
    ∀ cs acc, OnlyNl cs → endsNl cs = true →
      joinNl (splitlinesAux cs acc) = acc.reverse ++ cs := by
  intro cs acc
  induction cs, acc using splitlinesAux.induct with
  | case1 acc hemp => intro _ h; simp [endsNl] at h
  | case2 acc hemp => intro _ h; simp [endsNl] at h
  | case3 c acc hbrk ih =>
    intro honly _
    have hcn : c = '\n' := honly c (List.mem_cons_self _ _) hbrk
    subst hcn
    unfold splitlinesAux
    rw [if_pos hbrk]
    simp [joinNl, splitlinesAux]
  | case4 c acc hbrk ih =>
    intro _ hend
    have : c = '\n' := by simpa [endsNl] using hend
    subst this
    exact absurd (by decide : isBreak '\n' = true) hbrk
  | case5 c c2 rest acc h ih =>
    intro honly _
    rcases h with ⟨rfl, rfl⟩
    exact absurd (honly '\r' (List.mem_cons_self _ _) (by decide)) (by decide)
  | case6 c c2 rest acc h hbrk ih =>
    intro honly hend
    have hcn : c = '\n' := honly c (List.mem_cons_self _ _) hbrk
    subst hcn
    unfold splitlinesAux
    rw [if_neg h, if_pos hbrk]
    have honly' : OnlyNl (c2 :: rest) := fun d hd => honly d (List.mem_cons_of_mem _ hd)
    have hend' : endsNl (c2 :: rest) = true := hend
    show acc.reverse ++ '\n' :: joinNl (splitlinesAux (c2 :: rest) []) = _
    rw [ih honly' hend']
    simp
  | case7 c c2 rest acc h hbrk ih =>
    intro honly hend
    unfold splitlinesAux
    rw [if_neg h, if_neg hbrk]
    rw [ih (fun d hd => honly d (List.mem_cons_of_mem _ hd)) hend]
    simp

/-- Applying `joinNl` after `splitlines` is the identity on newline-terminated
text whose only boundary characters are newlines. -/
theorem joinNl_splitlines (cs : List Char) (h1 : OnlyNl cs) (h2 : endsNl cs = true) :
    joinNl (splitlines cs) = cs := by
  have := joinNl_splitlinesAux cs [] h1 h2
  simpa [splitlines] using this

/-! ### Helper lemmas about the priority table and collections -/

theorem priorityLabel_cases {k l : String} (h : priorityLabel k = some l) :
    l = "Optional" ∨ l = "Low" ∨ l = "Medium" ∨ l = "High" ∨ l = "Crucial" := by
  simp only [priorityLabel, PRIORITIES, List.lookup] at h
  repeat' split at h
  all_goals simp_all

/-- Every display label in the priority table is free of line-boundary
characters. -/
theorem breakFree_label {k l : String} (h : priorityLabel k = some l) :
    BreakFree l.data := by
  rcases priorityLabel_cases h with rfl | rfl | rfl | rfl | rfl <;> decide

theorem breakFree_append {a b : List Char} (ha : BreakFree a) (hb : BreakFree b) :
    BreakFree (a ++ b) := by
  intro c hc
  rcases List.mem_append.1 hc with h | h
  exacts [ha c h, hb c h]

/-- The line appended in txt mode is break-free whenever the name, the
description and the label are. -/
theorem breakFree_newTxtLine {n d l : String} (hn : BreakFree n.data)
    (hd : BreakFree d.data) (hl : BreakFree l.data) :
    BreakFree (newTxtLine n d l).data := by
  unfold newTxtLine
  simp only [String.data_append]
  exact breakFree_append (breakFree_append (breakFree_append
    (breakFree_append (breakFree_append hn (by decide)) hd) (by decide)) hl) (by decide)

theorem takeRecs_map_dict : ∀ rs : List TodoItem, takeRecs (rs.map Todo.dict) = rs := by
  intro rs
  induction rs with
  | nil => rfl
  | cons r rs ih => simp [takeRecs, ih]

/-- A collection loaded in csv mode consists of dict entries only. -/
theorem loadCsv_shape (fs : FileState) :
    ∃ rs : List TodoItem, (loadTodos .csv fs).1 = rs.map Todo.dict := by
  cases fs with
  | csvFile rows => exact ⟨rows, rfl⟩
  | missing => exact ⟨[], rfl⟩
  | jsonFile es => exact ⟨[], rfl⟩
  | txtFile content => exact ⟨[], rfl⟩
  | malformed fmt => exact ⟨[], rfl⟩

/-- A collection loaded in txt mode consists of raw string entries whose
characters are free of line boundaries (they come from `splitlines`). -/
theorem loadTxt_shape (fs : FileState) :
    ∃ pieces : List (List Char),
      (loadTodos .txt fs).1 = pieces.map (fun l => Todo.str ⟨l⟩) ∧
        ∀ l ∈ pieces, BreakFree l := by
  cases fs with
  | txtFile content => exact ⟨splitlines content, rfl, breakFree_splitlines content⟩
  | missing => exact ⟨[], rfl, by intro l hl; cases hl⟩
  | jsonFile es => exact ⟨[], rfl, by intro l hl; cases hl⟩
  | csvFile rows => exact ⟨[], rfl, by intro l hl; cases hl⟩
  | malformed fmt => exact ⟨[], rfl, by intro l hl; cases hl⟩

/-- Filtering an all-dict collection never raises and keeps exactly the
entries whose priority label matches. -/
theorem filterTodos_map_dict (label : String) :
    ∀ rs : List TodoItem,
      filterTodos (some label) (rs.map Todo.dict) =
        some ((rs.filter fun r => r.priority == label).map Todo.dict) := by
  intro rs
  induction rs with
  | nil => rfl
  | cons r rs ih =>
    show (filterTodos (some label) (rs.map Todo.dict)).map _ = _
    rw [ih]
    by_cases hr : r.priority = label
    · simp [List.filter_cons, hr]
    · simp [List.filter_cons, hr]

/-- Rendering an all-dict collection in a structured format echoes one
line per entry, numbered consecutively, without crashing. -/
theorem renderLines_map_dict (fmt : StorageType) (hfmt : fmt ≠ .txt) :
    ∀ (rs : List TodoItem) (i : Nat),
      renderLines fmt i (rs.map Todo.dict) =
        ((List.enumFrom i rs).map fun p => displayRecLine p.1 p.2, false) := by
  intro rs
  induction rs with
  | nil => intro i; rfl
  | cons r rs ih =>
    intro i
    have hfl : formatLine fmt i (Todo.dict r) = some (displayRecLine i r) := by
      cases fmt with
      | txt => exact absurd rfl hfmt
      | json => rfl
      | csv => rfl
    show renderLines fmt i (Todo.dict r :: rs.map Todo.dict) = _
    unfold renderLines
    rw [hfl, ih (i + 1)]
    simp [List.enumFrom]

/-- Two mapped lists built from the distinct constructors `Todo.str` and
`Todo.dict` can only be equal when both are empty. -/
theorem map_str_eq_map_dict {pieces : List (List Char)} {rs : List TodoItem}
    (h : pieces.map (fun l => Todo.str ⟨l⟩) = rs.map Todo.dict) :
    pieces = [] ∧ rs = [] := by
  cases pieces with
  | nil =>
    cases rs with
    | nil => exact ⟨rfl, rfl⟩
    | cons r rs' => simp at h
  | cons p ps =>
    cases rs with
    | nil => simp at h
    | cons r rs' => simp at h

/-- Python `list.pop` at a nonnegative in-range index removes the entry there. -/
theorem pyPop_nonneg (todos : List Todo) (i : Nat) (h : i < todos.length) :
    pyPop todos (i : Int) = some (todos.take i ++ todos.drop (i + 1)) := by
  simp only [pyPop]
  have hpos : (if (i : Int) < 0 then (i : Int) + (todos.length : Int) else (i : Int)) =
      (i : Int) := if_neg (by omega)
  rw [hpos,
    if_pos (show (0 : Int) ≤ (i : Int) ∧ (i : Int) < (todos.length : Int) by
      constructor <;> omega),
    Int.toNat_ofNat, List.eraseIdx_eq_take_drop_succ]

/-- Python `list.pop` at a negative index within `-n ≤ idx ≤ -1` removes the
entry at position `idx + n`. -/
theorem pyPop_neg_in_range (todos : List Todo) (idx : Int)
    (h2 : -(todos.length : Int) ≤ idx) (h3 : idx ≤ -1) :
    pyPop todos idx =
      some (todos.take (idx + (todos.length : Int)).toNat ++
        todos.drop ((idx + (todos.length : Int)).toNat + 1)) := by
  simp only [pyPop]
  have hpos : (if idx < 0 then idx + (todos.length : Int) else idx) =
      idx + (todos.length : Int) := if_pos (by omega)
  rw [hpos,
    if_pos (show (0 : Int) ≤ idx + (todos.length : Int) ∧
        idx + (todos.length : Int) < (todos.length : Int) by constructor <;> omega),
    List.eraseIdx_eq_take_drop_succ]

/-- Python `list.pop` below `-n` raises IndexError. -/
theorem pyPop_below_range (todos : List Todo) (idx : Int)
    (h : idx < -(todos.length : Int)) : pyPop todos idx = none := by
  simp only [pyPop]
  have hpos : (if idx < 0 then idx + (todos.length : Int) else idx) =
      idx + (todos.length : Int) := if_pos (by omega)
  rw [hpos, if_neg (by omega)]

/-! ### Claims -/

/-- C1 counterexample: the claim asserts that every out-of-range index —
including every negative one — leaves the file unchanged, performs no
save and echoes "Invalid todo index.".  At the concrete input
`idx = -1` on a one-entry collection this is false: the guard
`idx < len(todos)` passes, the last entry is popped and the result is
saved, with no message. -/
theorem delete_negative_index_cex :
    ¬ ((delete_todo (-1) .json (.jsonFile [Todo.dict ⟨"a", "b", "Low"⟩])).file =
          .jsonFile [Todo.dict ⟨"a", "b", "Low"⟩] ∧
        (delete_todo (-1) .json (.jsonFile [Todo.dict ⟨"a", "b", "Low"⟩])).saved = false ∧
        (delete_todo (-1) .json (.jsonFile [Todo.dict ⟨"a", "b", "Low"⟩])).echoed =
          ["Invalid todo index."]) := by decide

/-- C1 (amended): for every loaded collection and every index greater than
or equal to its length, the delete operation leaves the collection and the
stored file unchanged, performs no save, and reports "Invalid todo index."
to the user.  (Negative indices are not rejected by the code: the only
check is the upper bound `idx < len(todos)` — see C9 and C10.) -/
theorem delete_index_ge_length_no_save (idx : Int) (fmt : StorageType) (fs : FileState)
    (h : ((loadTodos fmt fs).1.length : Int) ≤ idx) :
    delete_todo idx fmt fs = ⟨fs, ["Invalid todo index."], false, false⟩ := by
  simp only [delete_todo]
  rw [if_neg (by omega)]

/-- Witness for C1 (amended) at index 5 on a one-entry collection. -/
theorem delete_index_ge_length_no_save_witness :
    ((loadTodos .json (.jsonFile [Todo.dict ⟨"a", "b", "Low"⟩])).1.length : Int) ≤ 5 ∧
      delete_todo 5 .json (.jsonFile [Todo.dict ⟨"a", "b", "Low"⟩]) =
        ⟨.jsonFile [Todo.dict ⟨"a", "b", "Low"⟩], ["Invalid todo index."], false, false⟩ :=
  ⟨by decide, delete_index_ge_length_no_save 5 .json (.jsonFile [Todo.dict ⟨"a", "b", "Low"⟩])
    (by decide)⟩

/-- C4: for every collection and every in-range index `i`, delete produces
the collection with the entry at position `i` removed (all other entries
keeping their relative order, as `take i ++ drop (i+1)`), of length one
less, and saves it; nothing is echoed and nothing crashes. -/
theorem delete_in_range (fmt : StorageType) (fs : FileState) (i : Nat)
    (h : i < (loadTodos fmt fs).1.length) :
    delete_todo (i : Int) fmt fs =
        ⟨saveTodos ((loadTodos fmt fs).1.take i ++ (loadTodos fmt fs).1.drop (i + 1)) fmt,
          [], true, false⟩ ∧
      ((loadTodos fmt fs).1.take i ++ (loadTodos fmt fs).1.drop (i + 1)).length + 1 =
        (loadTodos fmt fs).1.length := by
  constructor
  · simp only [delete_todo]
    rw [if_pos (by omega), pyPop_nonneg (loadTodos fmt fs).1 i h]
  · simp only [List.length_append, List.length_take, List.length_drop]
    omega

/-- Witness for C4: deleting index 0 from a two-entry collection. -/
theorem delete_in_range_witness :
    0 < (loadTodos .json
        (.jsonFile [Todo.dict ⟨"a", "b", "Low"⟩, Todo.dict ⟨"c", "d", "High"⟩])).1.length ∧
      (delete_todo ((0 : Nat) : Int) .json
          (.jsonFile [Todo.dict ⟨"a", "b", "Low"⟩, Todo.dict ⟨"c", "d", "High"⟩]) =
          ⟨saveTodos ((loadTodos .json
              (.jsonFile [Todo.dict ⟨"a", "b", "Low"⟩, Todo.dict ⟨"c", "d", "High"⟩])).1.take 0 ++
            (loadTodos .json
              (.jsonFile [Todo.dict ⟨"a", "b", "Low"⟩, Todo.dict ⟨"c", "d", "High"⟩])).1.drop 1)
            .json, [], true, false⟩ ∧
        ((loadTodos .json
            (.jsonFile [Todo.dict ⟨"a", "b", "Low"⟩, Todo.dict ⟨"c", "d", "High"⟩])).1.take 0 ++
          (loadTodos .json
            (.jsonFile [Todo.dict ⟨"a", "b", "Low"⟩, Todo.dict ⟨"c", "d", "High"⟩])).1.drop 1).length
            + 1 =
          (loadTodos .json
            (.jsonFile [Todo.dict ⟨"a", "b", "Low"⟩, Todo.dict ⟨"c", "d", "High"⟩])).1.length) :=
  ⟨by decide, delete_in_range .json
    (.jsonFile [Todo.dict ⟨"a", "b", "Low"⟩, Todo.dict ⟨"c", "d", "High"⟩]) 0 (by decide)⟩

/-- C9: for every loaded collection of length `n ≥ 1` and every negative
index with `-n ≤ idx ≤ -1`, delete pops the entry at position `n + idx`
(counting from the end) and saves the shortened collection — the only
bounds check performed is `idx < n`. -/
theorem delete_negative_in_range (fmt : StorageType) (fs : FileState) (idx : Int)
    (h1 : 1 ≤ (loadTodos fmt fs).1.length)
    (h2 : -((loadTodos fmt fs).1.length : Int) ≤ idx) (h3 : idx ≤ -1) :
    delete_todo idx fmt fs =
        ⟨saveTodos
            ((loadTodos fmt fs).1.take (idx + ((loadTodos fmt fs).1.length : Int)).toNat ++
              (loadTodos fmt fs).1.drop ((idx + ((loadTodos fmt fs).1.length : Int)).toNat + 1))
            fmt, [], true, false⟩ ∧
      ((loadTodos fmt fs).1.take (idx + ((loadTodos fmt fs).1.length : Int)).toNat ++
          (loadTodos fmt fs).1.drop
            ((idx + ((loadTodos fmt fs).1.length : Int)).toNat + 1)).length + 1 =
        (loadTodos fmt fs).1.length := by
  constructor
  · simp only [delete_todo]
    rw [if_pos (by omega), pyPop_neg_in_range (loadTodos fmt fs).1 idx h2 h3]
  · simp only [List.length_append, List.length_take, List.length_drop]
    omega

/-- Witness for C9: deleting index -1 from a two-entry collection removes
the final entry. -/
theorem delete_negative_in_range_witness :
    1 ≤ (loadTodos .json
        (.jsonFile [Todo.dict ⟨"a", "b", "Low"⟩, Todo.dict ⟨"c", "d", "High"⟩])).1.length ∧
      -(((loadTodos .json
          (.jsonFile [Todo.dict ⟨"a", "b", "Low"⟩, Todo.dict ⟨"c", "d", "High"⟩])).1.length : Int))
          ≤ -1 ∧
      (-1 : Int) ≤ -1 ∧
      (delete_todo (-1) .json
          (.jsonFile [Todo.dict ⟨"a", "b", "Low"⟩, Todo.dict ⟨"c", "d", "High"⟩])).file =
        .jsonFile [Todo.dict ⟨"a", "b", "Low"⟩] := by
  refine ⟨by decide, by decide, by decide, ?_⟩
  rw [(delete_negative_in_range .json
    (.jsonFile [Todo.dict ⟨"a", "b", "Low"⟩, Todo.dict ⟨"c", "d", "High"⟩]) (-1)
    (by decide) (by decide) (by decide)).1]
  decide

/-- C10: for every loaded collection and every index below `-n`, the pop
raises an uncaught IndexError: the command crashes, echoes nothing, and
the file is neither saved nor changed. -/
theorem delete_below_neg_length_crashes (fmt : StorageType) (fs : FileState) (idx : Int)
    (h : idx < -((loadTodos fmt fs).1.length : Int)) :
    delete_todo idx fmt fs = ⟨fs, [], false, true⟩ := by
  simp only [delete_todo]
  rw [if_pos (by omega), pyPop_below_range (loadTodos fmt fs).1 idx (by omega)]

/-- Witness for C10: deleting index -1 from the empty collection crashes. -/
theorem delete_below_neg_length_crashes_witness :
    (-1 : Int) < -(((loadTodos .json .missing).1.length : Int)) ∧
      delete_todo (-1) .json .missing = ⟨.missing, [], false, true⟩ :=
  ⟨by decide, delete_below_neg_length_crashes .json .missing (-1) (by decide)⟩

/-- C2 counterexample: with priority key "h" the scenario does not print
"(0) - X: Y [Priority: Crucial]": in the `PRIORITIES` table "h" maps to
"High"; "Crucial" is the label of key "c". -/
theorem add_h_then_list_cex :
    (list_todos none .json (add_todo "X" "Y" "h" .json .missing)).echoed ≠
      ["(0) - X: Y [Priority: Crucial]"] := by decide

/-- C2 (amended): starting from an empty store, `add-todo h -n "X" -d "Y"`
followed by `list-todos` prints exactly the line
"(0) - X: Y [Priority: High]" in every storage format (in line-text mode
it is the same single concatenated line), with no crash.  The label
"Crucial" belongs to key "c", not "h". -/
theorem add_h_then_list_line (fmt : StorageType) :
    list_todos none fmt (add_todo "X" "Y" "h" fmt .missing) =
      ⟨["(0) - X: Y [Priority: High]"], false⟩ := by
  cases fmt <;> decide

/-- C3: listing with a priority filter over a collection loaded in txt
mode crashes whenever the collection is nonempty: every loaded entry is a
raw string, and `todo['priority']` on a string raises an uncaught
TypeError inside the filtering comprehension. -/
theorem filtered_list_txt_crashes (k : String) (fs : FileState)
    (_hk : (priorityLabel k).isSome = true)
    (hne : (loadTodos .txt fs).1 ≠ []) :
    (list_todos (some k) .txt fs).crashed = true := by
  obtain ⟨pieces, hp, -⟩ := loadTxt_shape fs
  simp only [list_todos]
  rw [hp] at hne ⊢
  cases pieces with
  | nil => exact absurd rfl hne
  | cons p ps => rfl

/-- Witness for C3 on a one-line txt file with filter key "h". -/
theorem filtered_list_txt_crashes_witness :
    (priorityLabel "h").isSome = true ∧
      (loadTodos .txt (.txtFile ("a\n".data))).1 ≠ [] ∧
      (list_todos (some "h") .txt (.txtFile ("a\n".data))).crashed = true :=
  ⟨by decide, by decide,
    filtered_list_txt_crashes "h" (.txtFile ("a\n".data)) (by decide) (by decide)⟩

/-- The file content an empty collection is saved as, per format. -/
def emptyFile : StorageType → FileState
  | .json => .jsonFile []
  | .csv => .csvFile []
  | .txt => .txtFile []

/-- C8: `load_todos` never raises — every exception path is caught inside
it.  A missing file yields the empty collection with only an info log; an
existing but unparseable file logs the failure and also yields the empty
collection; and the collection returned for a corrupt file is identical
to the one returned for a missing or genuinely empty store, so the caller
cannot distinguish them. -/
theorem load_total_missing_and_corrupt (fmt : StorageType) :
    loadTodos fmt .missing = ([], .infoMissing) ∧
      loadTodos fmt (.malformed fmt) = ([], .errorParse) ∧
      (loadTodos fmt .missing).1 = (loadTodos fmt (.malformed fmt)).1 ∧
      (loadTodos fmt (emptyFile fmt)).1 = (loadTodos fmt (.malformed fmt)).1 := by
  cases fmt <;> exact ⟨rfl, rfl, rfl, rfl⟩

/-- C6: listing with a valid priority filter over a collection of dict
entries never errors and echoes exactly the entries whose priority label
equals the key's display name, re-indexed from 0 in filtered order; in
particular, when nothing matches, nothing is printed. -/
theorem list_filtered_exact (fmt : StorageType) (fs : FileState) (k label : String)
    (rs : List TodoItem) (hk : priorityLabel k = some label)
    (hload : (loadTodos fmt fs).1 = rs.map Todo.dict) :
    list_todos (some k) fmt fs =
      ⟨((rs.filter fun r => r.priority == label).enum).map fun p => displayRecLine p.1 p.2,
        false⟩ := by
  simp only [list_todos]
  rw [hload, hk]
  cases fmt with
  | txt =>
    obtain ⟨pieces, hp, -⟩ := loadTxt_shape fs
    obtain ⟨-, hrs⟩ := map_str_eq_map_dict (hp.symm.trans hload)
    subst hrs
    rfl
  | json =>
    rw [filterTodos_map_dict]
    show (⟨(renderLines .json 0 ((rs.filter fun r => r.priority == label).map Todo.dict)).1,
        (renderLines .json 0 ((rs.filter fun r => r.priority == label).map Todo.dict)).2⟩ :
      ListResult) = _
    rw [renderLines_map_dict .json (by intro h; cases h)]
    rfl
  | csv =>
    rw [filterTodos_map_dict]
    show (⟨(renderLines .csv 0 ((rs.filter fun r => r.priority == label).map Todo.dict)).1,
        (renderLines .csv 0 ((rs.filter fun r => r.priority == label).map Todo.dict)).2⟩ :
      ListResult) = _
    rw [renderLines_map_dict .csv (by intro h; cases h)]
    rfl

/-- Witness for C6: filtering a two-entry collection by key "h" echoes
only the matching entry, re-indexed from 0. -/
theorem list_filtered_exact_witness :
    priorityLabel "h" = some "High" ∧
      (loadTodos .json (.jsonFile [Todo.dict ⟨"a", "b", "Low"⟩, Todo.dict ⟨"c", "d", "High"⟩])).1 =
        [⟨"a", "b", "Low"⟩, ⟨"c", "d", "High"⟩].map Todo.dict ∧
      list_todos (some "h") .json
          (.jsonFile [Todo.dict ⟨"a", "b", "Low"⟩, Todo.dict ⟨"c", "d", "High"⟩]) =
        ⟨["(0) - c: d [Priority: High]"], false⟩ := by
  refine ⟨by decide, by decide, ?_⟩
  rw [list_filtered_exact .json
    (.jsonFile [Todo.dict ⟨"a", "b", "Low"⟩, Todo.dict ⟨"c", "d", "High"⟩]) "h" "High"
    [⟨"a", "b", "Low"⟩, ⟨"c", "d", "High"⟩] (by decide) (by decide)]
  decide

/-- C7 counterexample: in line-text mode the round-trip fails even at the
raw-string level on an entry containing a carriage return: saving
`["a\r"]` writes `"a\r\n"`, loading splits that into `["a"]` (Python
`splitlines` treats `\r\n` as one boundary), and re-saving writes
`"a\n"`. -/
theorem save_load_save_txt_cr_cex :
    saveTodos (loadTodos .txt (saveTodos [Todo.str "a\r"] .txt)).1 .txt ≠
      saveTodos [Todo.str "a\r"] .txt := by decide

/-- C7 (amended): for every storage format, `save (load (save X))` equals
`save X` — for json and csv at the level of the stored values, and for
line-text mode at the raw-string level provided no entry contains a
line-boundary character other than `\n` (otherwise the load re-splits
the text, as the counterexample shows). -/
theorem save_load_save_eq (fmt : StorageType) (X : List Todo)
    (htxt : fmt = .txt → ∀ t ∈ X, OnlyNl (pyChars t)) :
    saveTodos (loadTodos fmt (saveTodos X fmt)).1 fmt = saveTodos X fmt := by
  cases fmt with
  | json => rfl
  | csv =>
    show saveTodos ((takeRecs X).map Todo.dict) .csv = .csvFile (takeRecs X)
    simp [saveTodos, takeRecs_map_dict]
  | txt =>
    have hX := htxt rfl
    show saveTodos
        ((splitlines (joinNl (X.map pyChars))).map fun l => Todo.str ⟨l⟩) .txt =
      .txtFile (joinNl (X.map pyChars))
    simp only [saveTodos]
    congr 1
    rw [List.map_map]
    have hid : (pyChars ∘ fun l => Todo.str ⟨l⟩) = id := funext fun l => rfl
    rw [hid, List.map_id]
    cases hXnil : X with
    | nil => rfl
    | cons t ts =>
      apply joinNl_splitlines
      · apply onlyNl_joinNl
        intro l hl
        obtain ⟨t', ht', rfl⟩ := List.mem_map.1 hl
        exact hX t' (hXnil ▸ ht')
      · exact endsNl_joinNl _ (by simp)

/-- Witness for C7 on a one-entry txt collection. -/
theorem save_load_save_eq_witness :
    (StorageType.txt = .txt → ∀ t ∈ [Todo.str "a"], OnlyNl (pyChars t)) ∧
      saveTodos (loadTodos .txt (saveTodos [Todo.str "a"] .txt)).1 .txt =
        saveTodos [Todo.str "a"] .txt :=
  ⟨by decide, save_load_save_eq .txt [Todo.str "a"] (by decide)⟩

/-- C5 counterexample: in line-text mode, adding a todo whose name
contains a newline makes the reloaded collection grow by two entries, not
one — the claim fails as universally quantified over names. -/
theorem add_then_load_newline_cex :
    (loadTodos .txt (add_todo "a\nb" "d" "m" .txt (.txtFile []))).1.length ≠
      (loadTodos .txt (.txtFile [])).1.length + 1 := by decide

/-- The entry `add_todo` appends: the concatenated line in txt mode, the
three-field dict otherwise. -/
def newEntry (fmt : StorageType) (name description label : String) : Todo :=
  if fmt = .txt then Todo.str (newTxtLine name description label)
  else Todo.dict ⟨name, description, label⟩

/-- C5 (amended): for every stored collection, name, description and
priority key, `add` followed by `load` yields a collection exactly one
longer whose last entry is the new item — the dict with the given fields
and the key's display label in the structured formats, the single
concatenated line in txt mode — and an omitted key defaults to "m",
whose label is Medium.  In txt mode this requires the name and the
description to be free of line-boundary characters; otherwise the
appended line is re-split on load (see the counterexample). -/
theorem add_then_load (fmt : StorageType) (fs : FileState) (name description : String)
    (key : Option String) (label : String)
    (hk : priorityLabel (key.getD "m") = some label)
    (htxt : fmt = .txt → BreakFree name.data ∧ BreakFree description.data) :
    (loadTodos fmt (add_todo_cmd name description key fmt fs)).1 =
        (loadTodos fmt fs).1 ++ [newEntry fmt name description label] ∧
      (loadTodos fmt (add_todo_cmd name description key fmt fs)).1.length =
        (loadTodos fmt fs).1.length + 1 ∧
      (loadTodos fmt (add_todo_cmd name description key fmt fs)).1.getLast? =
        some (newEntry fmt name description label) ∧
      (key = none → label = "Medium") := by
  have hdefault : key = none → label = "Medium" := by
    rintro rfl
    have hm : priorityLabel ((none : Option String).getD "m") = some "Medium" := by decide
    rw [hm] at hk
    exact (Option.some.inj hk).symm
  have hmain : (loadTodos fmt (add_todo_cmd name description key fmt fs)).1 =
      (loadTodos fmt fs).1 ++ [newEntry fmt name description label] := by
    cases fmt with
    | json =>
      simp only [add_todo_cmd, add_todo, hk, Option.getD_some, newEntry]
      rw [if_neg (by intro h; cases h), if_neg (by intro h; cases h)]
      rfl
    | csv =>
      obtain ⟨rs, hrs⟩ := loadCsv_shape fs
      simp only [add_todo_cmd, add_todo, hk, Option.getD_some, newEntry]
      rw [if_neg (by intro h; cases h), if_neg (by intro h; cases h), hrs]
      have hset : List.map Todo.dict rs ++ [Todo.dict ⟨name, description, label⟩] =
          List.map Todo.dict (rs ++ [⟨name, description, label⟩]) := by
        simp
      rw [hset]
      show (takeRecs (List.map Todo.dict (rs ++ [⟨name, description, label⟩]))).map Todo.dict =
        List.map Todo.dict (rs ++ [⟨name, description, label⟩])
      rw [takeRecs_map_dict]
    | txt =>
      obtain ⟨hn, hd⟩ := htxt rfl
      obtain ⟨pieces, hp, hbf⟩ := loadTxt_shape fs
      have hline : BreakFree (newTxtLine name description label).data :=
        breakFree_newTxtLine hn hd (breakFree_label hk)
      have h1 : add_todo_cmd name description key .txt fs =
          .txtFile (joinNl (pieces ++ [(newTxtLine name description label).data])) := by
        simp only [add_todo_cmd, add_todo, hk, Option.getD_some, hp, if_true]
        simp only [saveTodos]
        congr 1
        rw [List.map_append, List.map_map]
        have hid : List.map (pyChars ∘ fun l => Todo.str ⟨l⟩) pieces = pieces := by
          rw [show (pyChars ∘ fun l => Todo.str (⟨l⟩ : String)) = id from funext fun l => rfl,
            List.map_id]
        rw [hid]
        rfl
      rw [h1, newEntry, if_pos rfl]
      show (splitlines (joinNl (pieces ++ [(newTxtLine name description label).data]))).map
          (fun l => Todo.str ⟨l⟩) = _
      rw [splitlines_joinNl (pieces ++ [(newTxtLine name description label).data])
        (by
          intro l hl
          rcases List.mem_append.1 hl with h | h
          · exact hbf l h
          · rcases List.mem_singleton.1 h with rfl
            exact hline)]
      rw [List.map_append, hp]
      rfl
  refine ⟨hmain, ?_, ?_, hdefault⟩
  · rw [hmain]
    simp
  · rw [hmain]
    exact List.getLast?_concat _

/-- Witness for C5: adding "X"/"Y" with the key omitted to an empty json
store appends the Medium-priority dict entry. -/
theorem add_then_load_witness :
    priorityLabel ((none : Option String).getD "m") = some "Medium" ∧
      (StorageType.json = .txt → BreakFree "X".data ∧ BreakFree "Y".data) ∧
      (loadTodos .json (add_todo_cmd "X" "Y" none .json .missing)).1 =
        (loadTodos .json .missing).1 ++ [newEntry .json "X" "Y" "Medium"] ∧
      (loadTodos .json (add_todo_cmd "X" "Y" none .json .missing)).1.length =
        (loadTodos .json .missing).1.length + 1 ∧
      (loadTodos .json (add_todo_cmd "X" "Y" none .json .missing)).1.getLast? =
        some (newEntry .json "X" "Y" "Medium") :=
  ⟨by decide, by decide,
    (add_then_load .json .missing "X" "Y" none "Medium" (by decide) (by decide)).1,
    (add_then_load .json .missing "X" "Y" none "Medium" (by decide) (by decide)).2.1,
    (add_then_load .json .missing "X" "Y" none "Medium" (by decide) (by decide)).2.2.1⟩

end TodoCli
